import Mathlib

/-!
Verification development for the HelixTranslate structured-document
translation pipeline.  The Python sources are shallowly embedded: strings
are Lean `String`s manipulated through executable models of the Python
string operations (built on `List Char` so that all definitions reduce),
stateful translator objects become explicit state records threaded through
the functions, and the external translation backend is a parameter
`Nat → Except ε String` giving the outcome of each successive invocation.
-/

set_option maxHeartbeats 1000000

/-! ## Models of the Python string primitives -/

/-- Python `str.strip()` on the underlying character list (leading and
trailing whitespace removed; the whitespace set is Lean's
`Char.isWhitespace` — space, tab, carriage return, newline). -/
def stripL (cs : List Char) : List Char :=
  ((cs.dropWhile Char.isWhitespace).reverse.dropWhile Char.isWhitespace).reverse

/-- Python `str.strip()`. -/
def pyStrip (s : String) : String := ⟨stripL s.data⟩

/-- Python `c in s` for a single character. -/
def containsChar (s : String) (c : Char) : Bool := s.data.contains c

/-- Python `s.replace(a, b)` for single-character `a` and `b`: every
occurrence of the character `a` is replaced by `b`. -/
def replaceChar (s : String) (a b : Char) : String :=
  ⟨s.data.map (fun c => if c = a then b else c)⟩

/-- Python `s.startswith(pre)`. -/
def pyStartsWith (s pre : String) : Bool := pre.data.isPrefixOf s.data

/-- Python `s[:n]` (slicing counts code points, as `List.take` does). -/
def pyTake (s : String) (n : Nat) : String := ⟨s.data.take n⟩

/-- Python `s.lower()`, modelled with Lean's `Char.toLower` (basic latin
letters; the embedding does not model the full Unicode case table). -/
def pyToLower (s : String) : String := ⟨s.data.map Char.toLower⟩

/-- The newline character appended by the paragraph-break repair rule. -/
def nlChar : Char := '\n'

/-- Python `s.endswith('\n')`: the last character is a newline. -/
def pyEndsWithNl (s : String) : Bool := s.data.getLast? == some nlChar

/-- The ASCII double-quote character `"` (code point 34), the character the
source's quotation-mark repair tests for and substitutes. -/
def quoteChar : Char := Char.ofNat 34

/-- The ASCII apostrophe character (code point 39), the character the
source's apostrophe repair tests for and substitutes. -/
def apostChar : Char := Char.ofNat 39

/-- First-occurrence split: `splitFirstL sep cs = some (before, after)` when
the (non-empty) pattern `sep` occurs in `cs`, splitting at the leftmost
occurrence; `none` when it does not occur. -/
def splitFirstL (sep : List Char) (cs : List Char) : Option (List Char × List Char) :=
  if sep.isPrefixOf cs then some ([], cs.drop sep.length)
  else
    match cs with
    | [] => none
    | c :: rest => (splitFirstL sep rest).map (fun p => (c :: p.1, p.2))

/-- Python `sub in s` for a substring. -/
def pyContainsStr (s sub : String) : Bool := (splitFirstL sub.data s.data).isSome

/-- Python `s.split(sep, 1)[1]` when `sep` occurs in `s`: everything after
the first occurrence of the separator; `none` when it does not occur. -/
def pySplitFirstAfter (s sep : String) : Option String :=
  (splitFirstL sep.data s.data).map (fun p => ⟨p.2⟩)

/-- Fuel-driven worker for Python `s.split(sep)` (non-empty separator,
leftmost non-overlapping occurrences).  The fuel is an upper bound on the
number of steps; callers pass `cs.length + 1`, which is always enough
because every step consumes at least one character. -/
def pySplitAux (sep : List Char) : Nat → List Char → List Char → List (List Char)
  | 0, cs, cur => [cur.reverse ++ cs]
  | fuel + 1, cs, cur =>
    if sep.isPrefixOf cs then cur.reverse :: pySplitAux sep fuel (cs.drop sep.length) []
    else
      match cs with
      | [] => [cur.reverse]
      | c :: rest => pySplitAux sep fuel rest (c :: cur)

/-- Python `s.split(sep)` for a non-empty separator. -/
def pySplit (s sep : String) : List String :=
  (pySplitAux sep.data (s.data.length + 1) s.data []).map (fun l => ⟨l⟩)

/-! ## Quality normalizer: `AdvancedFB2Translator.enhance_translation`
(`src/Legacy/high_quality_fb2_translator.py`, lines 106-131).

The source's quotation-mark and apostrophe repairs replace a character by
itself (`enhanced.replace('"', '"')` and `enhanced.replace("'", "'")` — all
four quote literals in the source are the plain ASCII characters), so those
two rules are guarded identity substitutions.  The `re.findall` of the
punctuation characters binds two local variables the function never reads,
so it has no semantic effect and is not modelled. -/

/-- Last character is a newline, on the underlying character list. -/
def endsNlL (l : List Char) : Bool := l.getLast? == some nlChar

/-- The paragraph-break repair on character lists: if the source text ends
with a newline and the translated text does not, append one. -/
def nlFixL (textL enhL : List Char) : List Char :=
  if endsNlL textL && !endsNlL enhL then enhL ++ [nlChar] else enhL

/-- The paragraph-break repair (`if text.endswith('\n') and not
enhanced.endswith('\n'): enhanced += '\n'`). -/
def nlFix (text enhanced : String) : String := ⟨nlFixL text.data enhanced.data⟩

/-- The sentence-start capitalization repair on character lists: if the
translated text starts with a lower-case letter while the source starts
with an upper-case one, upper-case the first character. -/
def capFixL (textL enhL : List Char) : List Char :=
  match enhL, textL with
  | c :: rest, d :: _ => if c.isLower && d.isUpper then c.toUpper :: rest else c :: rest
  | e, _ => e

/-- The capitalization repair (`if enhanced and enhanced[0].islower() and
text and text[0].isupper(): enhanced = enhanced[0].upper() + enhanced[1:]`). -/
def capFix (text enhanced : String) : String := ⟨capFixL text.data enhanced.data⟩

/-- The quotation-mark repair: both `replace` calls in the source replace
the ASCII double quote by itself, so the guarded substitution is an
identity. -/
def quoteFix (text enhanced : String) : String :=
  if containsChar text quoteChar && !containsChar enhanced quoteChar then
    replaceChar (replaceChar enhanced quoteChar quoteChar) quoteChar quoteChar
  else enhanced

/-- The apostrophe repair: the source's `replace` call substitutes the ASCII
apostrophe by itself, so the guarded substitution is an identity. -/
def apostFix (text enhanced : String) : String :=
  if containsChar text apostChar && !containsChar enhanced apostChar then
    replaceChar enhanced apostChar apostChar
  else enhanced

/-- `AdvancedFB2Translator.enhance_translation(text, translated, context)`:
the four repair rules applied in source order. -/
def enhanceTranslation (text translated context : String) : String :=
  capFix text (nlFix text (apostFix text (quoteFix text translated)))

/-! ## Translator state and `AdvancedFB2Translator.translate_with_context`
(`src/Legacy/high_quality_fb2_translator.py`, lines 133-180).

The `googletrans` backend is abstracted as `backend : Nat → Except Unit String`
giving the outcome of the `attempt`-th invocation inside one call
(`Except.error` models a raised exception).  The third component of the
result counts how many times the backend was invoked. -/

/-- The translator's `translation_stats` counter dictionary. -/
structure TranslationStats where
  total : Nat
  translated : Nat
  errors : Nat
  cached : Nat
deriving DecidableEq, Repr

/-- The mutable state of an `AdvancedFB2Translator`: the `(text, context)`
translation cache, the statistics counters and the `errors` message list. -/
structure TranslatorState where
  cache : List ((String × String) × String)
  stats : TranslationStats
  errorsLog : List String
deriving DecidableEq, Repr

/-- A freshly constructed translator: empty cache, zero counters. -/
def initState : TranslatorState := ⟨[], ⟨0, 0, 0, 0⟩, []⟩

/-- The `reference_translations` dictionary of the source, in literal order
(the source lists the key `"дом"` twice with the same value; a lookup finds
the first, as the Python dict keeps one). -/
def referenceTranslations : List (String × String) :=
  [("Ратибор", "Ратибор"),
   ("Отзвуки", "Одјеци"),
   ("фэнтези", "фантастикa"),
   ("научная фантастика", "научна фантастика"),
   ("приключения", "авантуре"),
   ("герой", "јунак"),
   ("мир", "свет"),
   ("человек", "човек"),
   ("жизнь", "живот"),
   ("любовь", "љубав"),
   ("смерть", "смрт"),
   ("время", "време"),
   ("дом", "кућа"),
   ("сердце", "срце"),
   ("душа", "душа"),
   ("свет", "светлост/свemin шин"),
   ("тьма", "мрак"),
   ("ночь", "ноћ"),
   ("день", "дан"),
   ("солнце", "сунце"),
   ("луна", "месец"),
   ("звезда", "звезда"),
   ("небо", "небо"),
   ("земля", "земља"),
   ("вода", "вода"),
   ("огонь", "ватра"),
   ("воздух", "ваздух"),
   ("деревня", "село"),
   ("город", "град"),
   ("улица", "улица"),
   ("дом", "кућа"),
   ("книга", "књига"),
   ("слово", "реч"),
   ("язык", "језик"),
   ("глава", "поглавље"),
   ("страница", "страница"),
   ("история", "прича"),
   ("конец", "крај"),
   ("начало", "почетак"),
   ("будущее", "будућност"),
   ("прошлое", "прошлост"),
   ("настоящее", "садашњост"),
   ("вопрос", "питање"),
   ("ответ", "одговор"),
   ("мысль", "мисао"),
   ("чувство", "осећање"),
   ("радость", "радост"),
   ("грусть", "туга"),
   ("страх", "страх"),
   ("надежда", "нада"),
   ("мечта", "сан")]

/-- The retry loop of `translate_with_context` (`for attempt in range(retries)`):
`idx` is the current attempt index, `left` the attempts remaining (the
current one included), `calls` the backend invocations made so far.  A
success enhances, caches and counts the translation; the exception on the
final attempt records an error message, bumps the `errors` counter and
yields `None`; with no attempts left the loop body never ran and the
function falls through to its final `return None`. -/
def runAttempts (backend : Nat → Except Unit String) (t c : String) :
    Nat → Nat → TranslatorState → Nat → Option String × TranslatorState × Nat
  | _, 0, st, calls => (none, st, calls)
  | idx, left + 1, st, calls =>
    match backend idx with
    | .ok result =>
      let enhanced := enhanceTranslation t result c
      (some enhanced,
       { st with cache := ((t, c), enhanced) :: st.cache,
                 stats := { st.stats with translated := st.stats.translated + 1 } },
       calls + 1)
    | .error _ =>
      if left = 0 then
        (none,
         { st with errorsLog :=
                     ("Translation failed: " ++ pyTake t 30 ++ "...") :: st.errorsLog,
                   stats := { st.stats with errors := st.stats.errors + 1 } },
         calls + 1)
      else runAttempts backend t c (idx + 1) left st (calls + 1)

/-- `AdvancedFB2Translator.translate_with_context(text, context, retries)`:
empty or whitespace-only text is returned unchanged; otherwise the cache is
consulted, then the reference dictionary, then—when a translator is
enabled—the backend inside the retry loop. -/
def translateWithContext (enabled : Bool) (backend : Nat → Except Unit String)
    (st : TranslatorState) (text context : String) (retries : Nat) :
    Option String × TranslatorState × Nat :=
  if pyStrip text = "" then (some text, st, 0)
  else
    match List.lookup (text, context) st.cache with
    | some v =>
      (some v, { st with stats := { st.stats with cached := st.stats.cached + 1 } }, 0)
    | none =>
      match List.lookup text referenceTranslations with
      | some v =>
        (some v,
         { st with stats := { st.stats with translated := st.stats.translated + 1 },
                   cache := ((text, context), v) :: st.cache }, 0)
      | none =>
        if !enabled then (none, st, 0)
        else runAttempts backend text context 0 retries st 0

/-- A backend whose every invocation succeeds with the fixed remote answer
of the spec's cache scenario. -/
def demoBackend : Nat → Except Unit String := fun _ => Except.ok "Здраво свете"

/-- The translator state after one successful backend translation of the
spec scenario's fragment. -/
def demoState1 : TranslatorState :=
  { cache := [(("Привет мир", "section/p"), "Здраво свете")],
    stats := { total := 0, translated := 1, errors := 0, cached := 0 },
    errorsLog := [] }

/-! ## The document tree and `process_element_translations`
(`src/Legacy/high_quality_fb2_translator.py`, lines 244-296).

An `ElementTree` element: tag, attributes, own text (`element.text`), tail
text (`element.tail`) and the ordered children.  The children are a mutually
inductive list so that all recursions stay structural.

The source of `process_element_translations` contains the child/tail
processing block twice (lines 261-277 and again, verbatim, lines 280-296),
so one call processes the element's own text once, then the children and the
tail twice each; the model mirrors this faithfully.  The recursion is driven
by a fuel argument because the second pass walks the already-rewritten
children, which are not a structural subterm; the wrapper passes the node
count of the tree, which bounds its depth, and each level of descent
consumes exactly one unit, so the fuel-exhausted branch (which returns the
element unchanged) is never reached from the wrapper. -/

mutual
/-- A markup element: `tag`, order-preserving `attrib`, optional own text,
optional tail text, ordered children. -/
inductive Elem where
  | mk (tag : String) (attrib : List (String × String)) (text : Option String)
      (tail : Option String) (children : ElemList)
deriving DecidableEq
/-- An ordered list of child elements. -/
inductive ElemList where
  | nil
  | cons (e : Elem) (es : ElemList)
deriving DecidableEq
end

/-- The element's tag. -/
def Elem.tag : Elem → String
  | .mk t _ _ _ _ => t

/-- The element's attribute list. -/
def Elem.attrib : Elem → List (String × String)
  | .mk _ a _ _ _ => a

/-- The element's own text (`element.text`). -/
def Elem.text : Elem → Option String
  | .mk _ _ t _ _ => t

/-- The element's tail text (`element.tail`). -/
def Elem.tail : Elem → Option String
  | .mk _ _ _ t _ => t

/-- The element's children. -/
def Elem.children : Elem → ElemList
  | .mk _ _ _ _ c => c

mutual
/-- Number of elements in the tree (bounds its depth). -/
def sizeE : Elem → Nat
  | .mk _ _ _ _ ch => 1 + sizeL ch
/-- Number of elements in a child list. -/
def sizeL : ElemList → Nat
  | .nil => 0
  | .cons e es => sizeE e + sizeL es
end

mutual
/-- The tree with both text slots of every element erased: the tag,
attribute and nesting structure alone. -/
def eraseTextE : Elem → Elem
  | .mk tag attrib _ _ ch => .mk tag attrib none none (eraseTextL ch)
/-- `eraseTextE` over a child list. -/
def eraseTextL : ElemList → ElemList
  | .nil => .nil
  | .cons e es => .cons (eraseTextE e) (eraseTextL es)
end

mutual
/-- Depth of the tree: the length of its longest root-to-leaf chain. -/
def depthE : Elem → Nat
  | .mk _ _ _ _ ch => 1 + depthL ch
/-- Largest depth among a list of children (`0` for no children). -/
def depthL : ElemList → Nat
  | .nil => 0
  | .cons e es => max (depthE e) (depthL es)
end

/-- One text-slot visit of the traversal: `if slot and slot.strip():` take
the stripped text, and when it has more than two characters count it in
`total` and translate it, writing the translation back when it is truthy and
the stripped original otherwise; shorter or whitespace slots are left
alone. -/
def textStep (enabled : Bool) (backend : Nat → Except Unit String)
    (st : TranslatorState) (ctx : String) (slot : Option String) :
    TranslatorState × Option String :=
  match slot with
  | none => (st, none)
  | some t =>
    if pyStrip t = "" then (st, some t)
    else
      let txt := pyStrip t
      if 2 < txt.length then
        let st1 := { st with stats := { st.stats with total := st.stats.total + 1 } }
        let r := translateWithContext enabled backend st1 txt ctx 3
        match r.1 with
        | some tr => if tr = "" then (r.2.1, some txt) else (r.2.1, some tr)
        | none => (r.2.1, some txt)
      else (st, some t)

/-- `for child in element:` — walk the children in order, handing each to
the element processor with the child context `f"{context}/{child.tag}" if
context else child.tag`, threading the translator state. -/
def processListWith (procElem : TranslatorState → String → Elem → TranslatorState × Elem) :
    TranslatorState → String → ElemList → TranslatorState × ElemList
  | st, _, .nil => (st, .nil)
  | st, ctx, .cons child rest =>
    let childCtx := if ctx = "" then child.tag else ctx ++ "/" ++ child.tag
    let r1 := procElem st childCtx child
    let r2 := processListWith procElem r1.1 ctx rest
    (r2.1, .cons r1.2 r2.2)

/-- `process_element_translations(element, context)` with explicit fuel:
own text once, then — as the duplicated source block dictates — children,
tail, children again, tail again. -/
def processElemF (enabled : Bool) (backend : Nat → Except Unit String) :
    Nat → TranslatorState → String → Elem → TranslatorState × Elem
  | 0, st, _, e => (st, e)
  | fuel + 1, st, ctx, .mk tag attrib text tail children =>
    let r1 := textStep enabled backend st ctx text
    let r2 := processListWith (processElemF enabled backend fuel) r1.1 ctx children
    let r3 := textStep enabled backend r2.1 (ctx ++ "/tail") tail
    let r4 := processListWith (processElemF enabled backend fuel) r3.1 ctx r2.2
    let r5 := textStep enabled backend r4.1 (ctx ++ "/tail") r3.2
    (r5.1, .mk tag attrib r1.2 r5.2 r4.2)

/-- `process_element_translations(element, context="")`, fuel instantiated
with the tree's node count (an upper bound on the recursion depth). -/
def processElementTranslations (enabled : Bool) (backend : Nat → Except Unit String)
    (st : TranslatorState) (ctx : String) (e : Elem) : TranslatorState × Elem :=
  processElemF enabled backend (sizeE e) st ctx e

/-- A backend whose every invocation raises (models an always-failing
`googletrans` call). -/
def failBackend : Nat → Except Unit String := fun _ => Except.error ()

/-- A leaf paragraph with substantial own text. -/
def nodeABV : Elem := .mk "p" [] (some "абв") none .nil

/-- A root with no text of its own and one child paragraph. -/
def rootC2 : Elem := .mk "root" [] none none (.cons nodeABV .nil)

/-! ## Retry wrapper: `translate_with_retry`
(`src/Legacy/fb2_translator.py`, lines 142-153).

The wrapper catches the bare `Exception`, so the model's backend fails with
an explicit kind drawn from the spec's taxonomy to let theorems speak about
which kinds are retried. -/

/-- The spec's backend failure taxonomy. -/
inductive FailKind where
  | rateLimited
  | timeout
  | unavailable
  | malformed
deriving DecidableEq, Repr

/-- The `for attempt in range(max_retries)` loop of `translate_with_retry`:
`idx` is the attempt index, `left` the attempts remaining (current one
included), `calls` the invocations made so far.  A success returns the
backend's text; the exception on the final attempt returns the original
text; any earlier exception—whatever its kind—just continues with the next
attempt. -/
def retryLoop (backend : Nat → Except FailKind String) (text : String) :
    Nat → Nat → Nat → String × Nat
  | _, 0, calls => (text, calls)
  | idx, left + 1, calls =>
    match backend idx with
    | .ok r => (r, calls + 1)
    | .error _ =>
      if left = 0 then (text, calls + 1)
      else retryLoop backend text (idx + 1) left (calls + 1)

/-- `translate_with_retry(text, max_retries=3)`: the result text together
with the number of backend invocations made. -/
def translateWithRetry (backend : Nat → Except FailKind String) (text : String)
    (maxRetries : Nat) : String × Nat :=
  retryLoop backend text 0 maxRetries 0

/-- A backend failing with `Malformed` on every invocation. -/
def alwaysMalformed : Nat → Except FailKind String := fun _ => Except.error FailKind.malformed

/-! ## Markdown pipeline: `translate_markdown_file`
(`src/internal/scripts/translate_llm_only.py`, lines 194-260).

The LLM provider is abstracted as `translate : String → Option String`
(`none` models a raised exception).  The source compares `success_rate =
(n - failed)/n` against the literal `0.9` in floating point; the model uses
the exact rational comparison `10*(n - failed) < 9*n`, which agrees at every
realistic paragraph count (the two sides could only differ for fractions
within one double-precision ulp of 0.9). -/

/-- The paragraph guard: markdown headers, code fences and quotes are
preserved as-is. -/
def skipParagraph (p : String) : Bool :=
  pyStartsWith p "#" || pyStartsWith p "```" || pyStartsWith p ">"

/-- One loop iteration of `translate_markdown_file`: the emitted paragraph
and whether it counted as failed.  A translation that raises, comes back
empty, or merely echoes the stripped input is a failure and the paragraph is
emitted as `[TRANSLATION FAILED] <stripped original>`. -/
def processParagraph (translate : String → Option String) (p : String) : String × Bool :=
  if pyStrip p = "" then (p, false)
  else if skipParagraph p then (p, false)
  else
    match translate (pyStrip p) with
    | some t =>
      if t ≠ "" ∧ t ≠ pyStrip p then (t, false)
      else ("[TRANSLATION FAILED] " ++ pyStrip p, true)
    | none => ("[TRANSLATION FAILED] " ++ pyStrip p, true)

/-- The outcome of one `translate_markdown_file` run. -/
structure MarkdownRun where
  output : String
  failed : Nat
  total : Nat
  success : Bool
deriving DecidableEq, Repr

/-- `translate_markdown_file(input, output)`: split on blank lines, process
each paragraph, join, and report success exactly when the failure fraction
stays below the 90% threshold (`success_rate < 0.9` returns `False`). -/
def translateMarkdownFile (translate : String → Option String) (content : String) :
    MarkdownRun :=
  let paragraphs := pySplit content "\n\n"
  let results := paragraphs.map (processParagraph translate)
  let failed := (results.filter (fun r => r.2)).length
  { output := String.intercalate "\n\n" (results.map (fun r => r.1)),
    failed := failed,
    total := paragraphs.length,
    success := decide (9 * paragraphs.length ≤ 10 * (paragraphs.length - failed)) }

/-- Ten substantial paragraphs for the spec's threshold scenario. -/
def tenParagraphs : List String :=
  ["Один", "Два", "Три", "Четыре", "Пять", "Шесть", "Семь", "Восемь", "Девять", "Десять"]

/-- The ten paragraphs as one markdown document. -/
def content10 : String := String.intercalate "\n\n" tenParagraphs

/-- A translator that raises on the listed paragraphs and succeeds (with a
visibly changed text) on every other. -/
def failOn (bad : List String) : String → Option String :=
  fun s => if s ∈ bad then none else some (s ++ "!")

/-! ## Local-process output parsing: `translate_with_llamacpp`
(`src/internal/scripts/translate_llm_only.py`, lines 67-130).

Only the pure part is modelled: given the subprocess's return code and
captured stdout, extract the translation after the `"Serbian translation:"`
marker and raise (`none`) when no marker is found, the extraction is empty,
or the extraction merely echoes the source (case-insensitive prefix
comparison). -/

/-- The marker after which the translation is expected. -/
def markerStr : String := "Serbian translation:"

/-- The line-scanning loop of `translate_with_llamacpp`: `started` is
`translation_started`.  A line containing the marker appends what follows
the marker (stripped, when non-empty) and flips `started`; a non-blank line
after that is appended stripped unless it re-quotes the original text
(contains `"Original text:"` or starts with the source's first twenty
characters), which stops the scan. -/
def extractLines (text : String) : Bool → List String → List String
  | _, [] => []
  | started, line :: rest =>
    match pySplitFirstAfter line markerStr with
    | some after =>
      (if pyStrip after ≠ "" then [pyStrip after] else []) ++ extractLines text true rest
    | none =>
      if started ∧ pyStrip line ≠ "" then
        if pyContainsStr line "Original text:" || pyStartsWith line (pyTake text 20) then []
        else pyStrip line :: extractLines text started rest
      else extractLines text started rest

/-- The `result_text` of `translate_with_llamacpp`: collected lines joined
with newlines and stripped. -/
def llamaExtract (stdout text : String) : String :=
  pyStrip (String.intercalate "\n" (extractLines text false (pySplit stdout "\n")))

/-- `translate_with_llamacpp(text)` given the subprocess outcome: `none`
models the raised exception (non-zero exit, no marker/empty extraction, or
an echo of the input — `result_text.lower() == text.lower()[:len(result_text)]`). -/
def translateWithLlamacpp (returncode : Int) (stdout text : String) : Option String :=
  if returncode ≠ 0 then none
  else
    let resultText := llamaExtract stdout text
    if resultText = "" ∨ pyToLower resultText = pyTake (pyToLower text) resultText.length then
      none
    else some resultText

/-! ## Script transliterator: `FB2Translator.convert_script` and
`SERBIAN_CYRILLIC_TO_LATIN` (`src/Legacy/high_quality_translate.py`,
lines 17-25 and 82-91). -/

/-- The `SERBIAN_CYRILLIC_TO_LATIN` table, in literal order.  Every key is a
single character; several values are Latin digraphs. -/
def serbianCyrillicToLatin : List (String × String) :=
  [("А", "A"), ("Б", "B"), ("В", "V"), ("Г", "G"), ("Д", "D"), ("Ђ", "Đ"),
   ("Е", "E"), ("Ж", "Ž"), ("З", "Z"),
   ("И", "I"), ("Ј", "J"), ("К", "K"), ("Л", "L"), ("Љ", "Lj"), ("М", "M"),
   ("Н", "N"), ("Њ", "Nj"), ("О", "O"),
   ("П", "P"), ("Р", "R"), ("С", "S"), ("Т", "T"), ("Ћ", "Ć"), ("У", "U"),
   ("Ф", "F"), ("Х", "H"), ("Ц", "C"),
   ("Ч", "Č"), ("Џ", "Dž"), ("Ш", "Š"), ("а", "a"), ("б", "b"), ("в", "v"),
   ("г", "g"), ("д", "d"), ("ђ", "đ"),
   ("е", "e"), ("ж", "ž"), ("з", "z"), ("и", "i"), ("ј", "j"), ("к", "k"),
   ("л", "l"), ("љ", "lj"), ("м", "m"),
   ("н", "n"), ("њ", "nj"), ("о", "o"), ("п", "p"), ("р", "r"), ("с", "s"),
   ("т", "t"), ("ћ", "ć"), ("у", "u"),
   ("ф", "f"), ("х", "h"), ("ц", "c"), ("ч", "č"), ("џ", "dž"), ("ш", "š")]

/-- `table.get(char, char)`: the mapped value's characters, or the character
itself when unmapped. -/
def charLookupSub (table : List (String × String)) (ch : Char) : List Char :=
  match List.lookup (String.mk [ch]) table with
  | some v => v.data
  | none => [ch]

/-- `SERBIAN_CYRILLIC_TO_LATIN.get(char, char)`. -/
def mapCharSub (ch : Char) : List Char := charLookupSub serbianCyrillicToLatin ch

/-- `FB2Translator.convert_script(text)`: when the target script is
`'latin'`, substitute character by character through the table, keeping
unmapped characters; otherwise return the text unchanged. -/
def convertScript (targetScript : String) (text : String) : String :=
  if targetScript = "latin" then ⟨(text.data.map mapCharSub).flatten⟩
  else text

/-- One step of the longest-match scan: keep the candidate with the longest
non-empty key that is a prefix of the remaining text (the earliest such
entry on ties). -/
def bestStep (cs : List Char) (best : Option (String × String)) (kv : String × String) :
    Option (String × String) :=
  if kv.1.data ≠ [] ∧ kv.1.data.isPrefixOf cs then
    match best with
    | none => some kv
    | some b => if b.1.data.length < kv.1.data.length then some kv else best
  else best

/-- The longest table key matching a prefix of `cs` (spec-side definition). -/
def bestMatchAt (table : List (String × String)) (cs : List Char) :
    Option (String × String) :=
  table.foldl (bestStep cs) none

/-- Greedy transliteration as the spec words it, with fuel bounding the
number of steps: at each position substitute the longest matching source
sequence (multi-character sequences thus take precedence over
single-character ones), and copy characters with no mapping entry
unchanged. -/
def greedyAux (table : List (String × String)) : Nat → List Char → List Char
  | _, [] => []
  | 0, _ :: _ => []
  | fuel + 1, c :: rest =>
    match bestMatchAt table (c :: rest) with
    | some kv => kv.2.data ++ greedyAux table fuel ((c :: rest).drop kv.1.data.length)
    | none => c :: greedyAux table fuel rest

/-- Greedy longest-match transliteration over a whole string (spec-side
definition, to be compared with the source's `convert_script`). -/
def greedyTransliterate (table : List (String × String)) (text : String) : String :=
  ⟨greedyAux table text.data.length text.data⟩

/-! ## Legacy job reporting: `AdvancedFB2Translator.process_fb2_structure`
(`src/Legacy/high_quality_fb2_translator.py`, lines 182-226). -/

/-- `process_fb2_structure(input, output)`, pure core: the XML parse, the
(duplicated) `write_enhanced_xml` calls and the statistics printing are I/O
collaborator interactions, and `update_document_metadata` is a no-op on any
tree with no `description` element (its namespace-qualified `find` returns
`None`), so only the traversal is modelled.  After the traversal the source
reaches `return True` unconditionally — no statistic and no threshold is
consulted; `False` arises only from a raised exception (an I/O failure). -/
def processFb2Structure (enabled : Bool) (backend : Nat → Except Unit String)
    (st : TranslatorState) (root : Elem) : Bool × TranslatorState × Elem :=
  let r := processElementTranslations enabled backend st "" root
  (true, r.1, r.2)

/-! ## Older local-process output parsing: `parse_llama_output`
(`src/internal/scripts/translate_with_llama.py`, lines 119-149).

Unlike `translate_with_llamacpp`, this parser performs no failure checks at
all: it strips each line, skips ANSI/status/blank lines, collects every line
after the first one containing `"Translation:"` (plus what follows the
marker on that line), and returns the joined text — empty or a verbatim
echo of the source included.  The `original_prompt` parameter is unused, as
in the source. -/

/-- The line loop of `parse_llama_output`: `found` is `found_translation`. -/
def parseLlamaLines (found : Bool) : List String → List String
  | [] => []
  | rawLine :: rest =>
    let line := pyStrip rawLine
    if pyStartsWith line "\x1b[" || line = ">" || line = "" then
      parseLlamaLines found rest
    else if found then line :: parseLlamaLines found rest
    else
      match pySplitFirstAfter line "Translation:" with
      | some after =>
        (if pyStrip after ≠ "" then [pyStrip after] else []) ++ parseLlamaLines true rest
      | none => parseLlamaLines found rest

/-- `parse_llama_output(output, original_prompt)`: collected lines joined
with newlines and stripped — returned as the translation with no marker,
emptiness or echo failure. -/
def parseLlamaOutput (output originalPrompt : String) : String :=
  pyStrip (String.intercalate "\n" (parseLlamaLines false (pySplit output "\n")))

/-! ## Helper theorems about characters and the normalizer -/

theorem uint32_le_iff_toNat_le (a b : UInt32) : (a ≤ b) ↔ a.toNat ≤ b.toNat := by
  rw [UInt32.le_def, BitVec.le_def]; rfl

theorem char_isLower_iff (d : Char) : d.isLower = true ↔ 97 ≤ d.toNat ∧ d.toNat ≤ 122 := by
  simp only [Char.isLower, ge_iff_le, Bool.and_eq_true, decide_eq_true_eq,
    uint32_le_iff_toNat_le]
  constructor
  · intro ⟨h1, h2⟩
    exact ⟨le_trans (by decide) h1, le_trans h2 (by decide)⟩
  · intro ⟨h1, h2⟩
    exact ⟨le_trans (by decide) h1, le_trans h2 (by decide)⟩

theorem char_toUpper_toNat (c : Char) (h97 : 97 ≤ c.toNat) (h122 : c.toNat ≤ 122) :
    (c.toUpper).toNat = c.toNat - 32 := by
  rw [Char.toUpper]
  simp only [h97, h122, and_self, if_pos, ite_true]
  have hvalid : (c.toNat - 32).isValidChar := Or.inl (by omega)
  rw [Char.ofNat, dif_pos hvalid]
  show (BitVec.ofNatLt (c.toNat - 32) _).toNat = c.toNat - 32
  simp [BitVec.toNat_ofNatLt]

theorem char_toUpper_not_isLower (c : Char) (h : c.isLower = true) :
    (c.toUpper).isLower = false := by
  rw [char_isLower_iff] at h
  have hup := char_toUpper_toNat c h.1 h.2
  by_contra hcon
  rw [Bool.not_eq_false, char_isLower_iff, hup] at hcon
  omega

theorem replaceChar_self (s : String) (a : Char) : replaceChar s a a = s := by
  cases s with
  | mk data =>
    simp only [replaceChar]
    congr 1
    exact (List.map_congr_left (fun c _ => by split <;> simp_all)).trans (List.map_id data)

theorem quoteFix_eq_id (text enhanced : String) : quoteFix text enhanced = enhanced := by
  unfold quoteFix
  rw [replaceChar_self, replaceChar_self, ite_self]

theorem apostFix_eq_id (text enhanced : String) : apostFix text enhanced = enhanced := by
  unfold apostFix
  rw [replaceChar_self, ite_self]

theorem enhanceTranslation_eq (text translated context : String) :
    enhanceTranslation text translated context = capFix text (nlFix text translated) := by
  unfold enhanceTranslation
  rw [quoteFix_eq_id, apostFix_eq_id]

theorem endsNlL_nlFixL (textL enhL : List Char) (h : endsNlL textL = true) :
    endsNlL (nlFixL textL enhL) = true := by
  unfold nlFixL
  split
  next hcond => simp only [endsNlL, List.getLast?_concat, beq_self_eq_true]
  next hcond =>
    rw [h, Bool.true_and, Bool.not_eq_true', Bool.not_eq_false] at hcond
    exact hcond

theorem nlFixL_of_endsNl (textL enhL : List Char) (h : endsNlL enhL = true) :
    nlFixL textL enhL = enhL := by
  simp [nlFixL, h]

theorem capFixL_nil (textL : List Char) : capFixL textL [] = [] := rfl

theorem capFixL_cons_nil (c : Char) (rest : List Char) :
    capFixL [] (c :: rest) = c :: rest := rfl

theorem capFixL_cons_cons (c : Char) (rest : List Char) (d : Char) (ds : List Char) :
    capFixL (d :: ds) (c :: rest) =
      if c.isLower && d.isUpper then c.toUpper :: rest else c :: rest := rfl

theorem endsNlL_capFixL (textL enhL : List Char) (h : endsNlL enhL = true) :
    endsNlL (capFixL textL enhL) = true := by
  cases enhL with
  | nil => rw [capFixL_nil]; exact h
  | cons c rest =>
    cases textL with
    | nil => rw [capFixL_cons_nil]; exact h
    | cons d ds =>
      rw [capFixL_cons_cons]
      by_cases hcase : (c.isLower && d.isUpper) = true
      · rw [if_pos hcase]
        cases rest with
        | nil =>
          exfalso
          simp only [endsNlL, List.getLast?_singleton, Option.some.injEq, beq_iff_eq] at h
          rw [Bool.and_eq_true, h] at hcase
          simp [Char.isLower, nlChar] at hcase
        | cons r rs =>
          simp only [endsNlL, List.getLast?_cons_cons] at h ⊢
          exact h
      · rw [if_neg hcase]
        exact h

theorem capFixL_capFixL (textL enhL : List Char) :
    capFixL textL (capFixL textL enhL) = capFixL textL enhL := by
  cases enhL with
  | nil => rw [capFixL_nil, capFixL_nil]
  | cons c rest =>
    cases textL with
    | nil => rw [capFixL_cons_nil, capFixL_cons_nil]
    | cons d ds =>
      rw [capFixL_cons_cons]
      by_cases hcase : (c.isLower && d.isUpper) = true
      · rw [if_pos hcase, capFixL_cons_cons]
        have hupper : (c.toUpper).isLower = false :=
          char_toUpper_not_isLower c ((Bool.and_eq_true _ _).mp hcase).1
        rw [hupper]
        simp
      · rw [if_neg hcase, capFixL_cons_cons, if_neg hcase]

/-- Claim C6: the quality normalizer is idempotent — for every source text
`s` and translated text `t`, `normalize(s, normalize(s, t)) = normalize(s, t)`
(model of `AdvancedFB2Translator.enhance_translation`). -/
theorem enhance_translation_idempotent (s t ctx : String) :
    enhanceTranslation s (enhanceTranslation s t ctx) ctx = enhanceTranslation s t ctx := by
  rw [enhanceTranslation_eq, enhanceTranslation_eq]
  unfold capFix nlFix
  by_cases h : endsNlL s.data = true
  · have h1 : endsNlL (nlFixL s.data t.data) = true := endsNlL_nlFixL s.data t.data h
    have h2 : endsNlL (capFixL s.data (nlFixL s.data t.data)) = true :=
      endsNlL_capFixL s.data _ h1
    rw [nlFixL_of_endsNl s.data _ h2, capFixL_capFixL]
  · have hid : ∀ u, nlFixL s.data u = u := by
      intro u
      rw [Bool.not_eq_true] at h
      simp [nlFixL, h]
    rw [hid, hid, capFixL_capFixL]

/-! ## Cache determinism and the whitespace fast path -/

theorem runAttempts_cache_of_some (backend : Nat → Except Unit String) (t c : String) :
    ∀ (left idx : Nat) (st : TranslatorState) (calls n : Nat) (v : String)
      (st1 : TranslatorState),
      runAttempts backend t c idx left st calls = (some v, st1, n) →
      List.lookup (t, c) st1.cache = some v := by
  intro left
  induction left with
  | zero =>
    intro idx st calls n v st1 h
    simp [runAttempts] at h
  | succ l ih =>
    intro idx st calls n v st1 h
    rw [runAttempts] at h
    cases hb : backend idx with
    | ok result =>
      rw [hb] at h
      simp only [Prod.mk.injEq, Option.some.injEq] at h
      obtain ⟨hv, hst, -⟩ := h
      rw [← hst]
      simp [List.lookup, hv]
    | error e =>
      rw [hb] at h
      cases l with
      | zero => simp at h
      | succ m =>
        rw [if_neg (Nat.succ_ne_zero m)] at h
        exact ih (idx + 1) st (calls + 1) n v st1 h

theorem translateWithContext_cache_of_some (enabled : Bool)
    (backend : Nat → Except Unit String) (st : TranslatorState)
    (t c : String) (retries : Nat) (v : String) (st1 : TranslatorState) (n : Nat)
    (hne : ¬(pyStrip t = ""))
    (h : translateWithContext enabled backend st t c retries = (some v, st1, n)) :
    List.lookup (t, c) st1.cache = some v := by
  unfold translateWithContext at h
  rw [if_neg hne] at h
  cases hcache : List.lookup (t, c) st.cache with
  | some w =>
    rw [hcache] at h
    simp only [Prod.mk.injEq, Option.some.injEq] at h
    obtain ⟨hv, hst, -⟩ := h
    rw [← hst]
    simpa [hv] using hcache
  | none =>
    rw [hcache] at h
    cases href : List.lookup t referenceTranslations with
    | some w =>
      rw [href] at h
      simp only [Prod.mk.injEq, Option.some.injEq] at h
      obtain ⟨hv, hst, -⟩ := h
      rw [← hst]
      simp [List.lookup, hv]
    | none =>
      rw [href] at h
      by_cases hen : enabled
      · rw [hen] at h
        simp only [Bool.not_true, Bool.false_eq_true, if_false] at h
        exact runAttempts_cache_of_some backend t c retries 0 st 0 n v st1 h
      · rw [Bool.not_eq_true] at hen
        rw [hen] at h
        simp only [Bool.not_false, if_true, Prod.mk.injEq] at h
        exact absurd h.1 (by simp)

/-- Claim C3: the cache is consulted before any backend invocation, and once
a fragment with a given `(text, context)` pair has been translated, a second
fragment with the identical pair receives the identical final value from the
cache — with zero backend invocations, whatever backend (even a different
one) is configured — and the `cached` counter is incremented. -/
theorem translate_with_context_cached_determinism
    (enabled enabled2 : Bool) (backend backend2 : Nat → Except Unit String)
    (st st1 : TranslatorState) (t c v : String) (n : Nat)
    (hne : ¬(pyStrip t = ""))
    (h1 : translateWithContext enabled backend st t c 3 = (some v, st1, n)) :
    translateWithContext enabled2 backend2 st1 t c 3 =
      (some v, { st1 with stats := { st1.stats with cached := st1.stats.cached + 1 } }, 0) := by
  have hc := translateWithContext_cache_of_some enabled backend st t c 3 v st1 n hne h1
  unfold translateWithContext
  rw [if_neg hne, hc]

/-- Witness for claim C3, the spec's own scenario: the fragment
`"Привет мир"` was translated once (backend answered `"Здраво свете"`); a
repeat of the identical `(text, context)` pair is served from the cache with
zero backend invocations and `cached` incremented. -/
theorem translate_with_context_cached_determinism_witness :
    translateWithContext true demoBackend demoState1 "Привет мир" "section/p" 3 =
      (some "Здраво свете",
       { cache := [(("Привет мир", "section/p"), "Здраво свете")],
         stats := { total := 0, translated := 1, errors := 0, cached := 1 },
         errorsLog := [] }, 0) :=
  translate_with_context_cached_determinism true true demoBackend demoBackend initState
    demoState1 "Привет мир" "section/p" "Здраво свете" 1 (by decide) (by decide)

/-- Claim C10: empty or whitespace-only text is returned unchanged by the
per-fragment translation entry point, with the cache and every statistics
counter untouched and no backend invocation. -/
theorem translate_with_context_whitespace (enabled : Bool)
    (backend : Nat → Except Unit String) (st : TranslatorState)
    (t c : String) (retries : Nat) (h : pyStrip t = "") :
    translateWithContext enabled backend st t c retries = (some t, st, 0) := by
  unfold translateWithContext
  rw [if_pos h]

/-- Witness for claim C10 at the concrete whitespace fragment `"  "`. -/
theorem translate_with_context_whitespace_witness :
    translateWithContext false demoBackend initState "  " "section/p" 3 =
      (some "  ", initState, 0) :=
  translate_with_context_whitespace false demoBackend initState "  " "section/p" 3 (by decide)

/-! ## Structure preservation and the duplicated traversal -/

theorem processListWith_shape
    (procElem : TranslatorState → String → Elem → TranslatorState × Elem)
    (hproc : ∀ (st : TranslatorState) (ctx : String) (e : Elem),
      eraseTextE (procElem st ctx e).2 = eraseTextE e) :
    ∀ (es : ElemList) (st : TranslatorState) (ctx : String),
      eraseTextL (processListWith procElem st ctx es).2 = eraseTextL es
  | .nil, st, ctx => by simp [processListWith, eraseTextL]
  | .cons child rest, st, ctx => by
    simp only [processListWith, eraseTextL]
    rw [hproc, processListWith_shape procElem hproc rest]

theorem processElemF_shape (enabled : Bool) (backend : Nat → Except Unit String) :
    ∀ (fuel : Nat) (st : TranslatorState) (ctx : String) (e : Elem),
      eraseTextE (processElemF enabled backend fuel st ctx e).2 = eraseTextE e := by
  intro fuel
  induction fuel with
  | zero => intro st ctx e; simp [processElemF]
  | succ f ih =>
    have hlist := processListWith_shape (processElemF enabled backend f) ih
    intro st ctx e
    cases e with
    | mk tag attrib text tail children =>
      simp only [processElemF, eraseTextE]
      rw [hlist, hlist]

/-- Claim C1: the traversal modifies only the text slots — for every input
tree (and any backend whatsoever, the identity backend included), the
processed tree is identical to the original once both are stripped of their
`text`/`tail` slots: every tag, every attribute list and the order and
nesting of all children are preserved. -/
theorem process_element_preserves_structure (enabled : Bool)
    (backend : Nat → Except Unit String) (st : TranslatorState) (ctx : String) (e : Elem) :
    eraseTextE (processElementTranslations enabled backend st ctx e).2 = eraseTextE e :=
  processElemF_shape enabled backend (sizeE e) st ctx e

/-- Claim C2 (evaluation of the code at the failing input): on a root with a
single child fragment the traversal's `total` counter reaches `2` — the
duplicated child/tail processing block presents the child's fragment to the
translation visitor twice, where the spec requires exactly once. -/
theorem traversal_presents_child_fragment_twice :
    ((processElementTranslations false failBackend initState "" rootC2).1).stats.total = 2 := by
  decide

/-- Claim C4 counterexample: in the legacy element pipeline a fragment whose
every backend attempt fails (the `errors` counter records the failure) is
written back as the bare stripped original `"абв"` — no failure marker of
any kind — indistinguishable from a successful no-op translation. -/
theorem legacy_failed_fragment_unmarked :
    ((processElementTranslations true failBackend initState "" nodeABV).2).text = some "абв"
    ∧ ((processElementTranslations true failBackend initState "" nodeABV).1).stats.errors = 1 := by
  decide

/-! ## Retry wrapper: bound and kind-blindness -/

theorem retryLoop_calls_le (backend : Nat → Except FailKind String) (text : String) :
    ∀ (left idx calls : Nat), (retryLoop backend text idx left calls).2 ≤ calls + left := by
  intro left
  induction left with
  | zero => intro idx calls; simp [retryLoop]
  | succ l ih =>
    intro idx calls
    rw [retryLoop]
    cases backend idx with
    | ok r =>
      show calls + 1 ≤ calls + (l + 1)
      omega
    | error e =>
      cases l with
      | zero =>
        show calls + 1 ≤ calls + 1
        omega
      | succ m =>
        show (retryLoop backend text (idx + 1) (m + 1) (calls + 1)).2 ≤ calls + (m + 1 + 1)
        have := ih (idx + 1) (calls + 1)
        omega

theorem retryLoop_calls_ge (backend : Nat → Except FailKind String) (text : String) :
    ∀ (left idx calls : Nat), calls ≤ (retryLoop backend text idx left calls).2 := by
  intro left
  induction left with
  | zero => intro idx calls; simp [retryLoop]
  | succ l ih =>
    intro idx calls
    rw [retryLoop]
    cases backend idx with
    | ok r =>
      show calls ≤ calls + 1
      omega
    | error e =>
      cases l with
      | zero =>
        show calls ≤ calls + 1
        omega
      | succ m =>
        show calls ≤ (retryLoop backend text (idx + 1) (m + 1) (calls + 1)).2
        have := ih (idx + 1) (calls + 1)
        omega

theorem retryLoop_calls_ge_one (backend : Nat → Except FailKind String) (text : String) :
    ∀ (left idx calls : Nat), 1 ≤ left → calls + 1 ≤ (retryLoop backend text idx left calls).2 := by
  intro left
  cases left with
  | zero => intro idx calls h; omega
  | succ l =>
    intro idx calls _
    rw [retryLoop]
    cases backend idx with
    | ok r =>
      show calls + 1 ≤ calls + 1
      omega
    | error e =>
      cases l with
      | zero =>
        show calls + 1 ≤ calls + 1
        omega
      | succ m =>
        show calls + 1 ≤ (retryLoop backend text (idx + 1) (m + 1) (calls + 1)).2
        exact retryLoop_calls_ge backend text (m + 1) (idx + 1) (calls + 1)

/-- Claim C5 counterexample: a backend that always fails with `Malformed` is
invoked three times by `translate_with_retry` — the wrapper catches the bare
exception without inspecting its kind, so `Malformed` failures ARE retried,
where the claim requires the operation not to be retried (one invocation). -/
theorem retry_on_malformed_counterexample :
    (translateWithRetry alwaysMalformed "абв" 3).2 = 3 := by decide

/-- Claim C5 (amended): the retry wrapper invokes the backend at most
`maxAttempts` times per fragment, but it retries on every failure kind
alike — after any first-attempt failure, of whatever kind, a second
invocation follows. -/
theorem retry_bound_and_kind_blind :
    (∀ (backend : Nat → Except FailKind String) (text : String) (n : Nat),
        (translateWithRetry backend text n).2 ≤ n)
    ∧ (∀ (text : String) (k : FailKind) (rest : Nat → Except FailKind String),
        2 ≤ (translateWithRetry (fun i => if i = 0 then Except.error k else rest i) text 3).2) := by
  constructor
  · intro backend text n
    have := retryLoop_calls_le backend text n 0 0
    simpa [translateWithRetry] using this
  · intro text k rest
    show 2 ≤ (retryLoop (fun i => if i = 0 then Except.error k else rest i) text 1 2 1).2
    exact retryLoop_calls_ge_one _ text 2 1 1 (by omega)

/-! ## Markdown pipeline: failure marking and the threshold gate -/

/-- Claim C4 (amended): in the markdown LLM pipeline every paragraph whose
translation fails — the provider raises, returns an empty text, or merely
echoes the input — is emitted wrapped as `[TRANSLATION FAILED] <stripped
original>`, never as bare source text; the run's `failed` counter counts
exactly these paragraphs. -/
theorem markdown_failed_paragraph_marked (translate : String → Option String) (p : String)
    (h : (processParagraph translate p).2 = true) :
    (processParagraph translate p).1 = "[TRANSLATION FAILED] " ++ pyStrip p := by
  by_cases h1 : pyStrip p = ""
  · exfalso
    have heq : processParagraph translate p = (p, false) := by
      unfold processParagraph
      rw [if_pos h1]
    rw [heq] at h
    simp at h
  · by_cases h2 : skipParagraph p = true
    · exfalso
      have heq : processParagraph translate p = (p, false) := by
        unfold processParagraph
        rw [if_neg h1, if_pos h2]
      rw [heq] at h
      simp at h
    · cases ht : translate (pyStrip p) with
      | none =>
        have heq : processParagraph translate p =
            ("[TRANSLATION FAILED] " ++ pyStrip p, true) := by
          unfold processParagraph
          rw [if_neg h1, if_neg h2, ht]
        rw [heq]
      | some t =>
        by_cases h3 : t ≠ "" ∧ t ≠ pyStrip p
        · exfalso
          have heq : processParagraph translate p = (t, false) := by
            unfold processParagraph
            rw [if_neg h1, if_neg h2, ht]
            exact if_pos h3
          rw [heq] at h
          simp at h
        · have heq : processParagraph translate p =
              ("[TRANSLATION FAILED] " ++ pyStrip p, true) := by
            unfold processParagraph
            rw [if_neg h1, if_neg h2, ht]
            exact if_neg h3
          rw [heq]

/-- Witness for claim C4 (amended): a provider that raises on the concrete
paragraph `"Привет"` yields the wrapped output. -/
theorem markdown_failed_paragraph_marked_witness :
    (processParagraph (fun _ => none) "Привет").1 = "[TRANSLATION FAILED] " ++ pyStrip "Привет" :=
  markdown_failed_paragraph_marked (fun _ => none) "Привет" (by decide)

/-- Claim C7: a run is reported overall-successful exactly when the fraction
of non-failed paragraphs meets or exceeds the 90% threshold; concretely, on
the spec's ten-paragraph document two failures (80%) report job failure and
one failure (exactly 90%) reports success, even though the failed paragraphs
were still written to the output. -/
theorem markdown_threshold_gate :
    (∀ (translate : String → Option String) (content : String),
        ((translateMarkdownFile translate content).success = true ↔
          9 * (translateMarkdownFile translate content).total ≤
            10 * ((translateMarkdownFile translate content).total -
              (translateMarkdownFile translate content).failed)))
    ∧ (translateMarkdownFile (failOn ["Два", "Три"]) content10).failed = 2
    ∧ (translateMarkdownFile (failOn ["Два", "Три"]) content10).success = false
    ∧ (translateMarkdownFile (failOn ["Два"]) content10).failed = 1
    ∧ (translateMarkdownFile (failOn ["Два"]) content10).success = true := by
  refine ⟨fun translate content => ?_, by decide, by decide, by decide, by decide⟩
  simp [translateMarkdownFile]

/-! ## Local-process output parsing: `Malformed` rejection -/

theorem extractLines_nil_of_no_marker (text : String) :
    ∀ (lines : List String), (∀ l ∈ lines, pyContainsStr l markerStr = false) →
      extractLines text false lines = [] := by
  intro lines
  induction lines with
  | nil => intro _; rfl
  | cons line rest ih =>
    intro h
    have hline := h line (List.mem_cons_self line rest)
    have hnone : pySplitFirstAfter line markerStr = none := by
      unfold pyContainsStr at hline
      unfold pySplitFirstAfter
      cases hsp : splitFirstL markerStr.data line.data with
      | none => rfl
      | some p => rw [hsp] at hline; simp at hline
    rw [extractLines, hnone]
    simp only [false_and, if_false]
    exact ih (fun l hl => h l (List.mem_cons_of_mem line hl))

/-- Claim C8: the local-process backend fails as `Malformed` (the model's
`none`) rather than returning text whenever the captured output contains no
marker line, or the extracted text is empty, or the extracted text is merely
a case-insensitive prefix echo of the source. -/
theorem llamacpp_malformed_rejection (rc : Int) (stdout text : String) :
    ((∀ l ∈ pySplit stdout "\n", pyContainsStr l markerStr = false) →
        translateWithLlamacpp rc stdout text = none)
    ∧ (llamaExtract stdout text = "" → translateWithLlamacpp rc stdout text = none)
    ∧ (pyToLower (llamaExtract stdout text) =
          pyTake (pyToLower text) (llamaExtract stdout text).length →
        translateWithLlamacpp rc stdout text = none) := by
  refine ⟨fun hnm => ?_, fun hempty => ?_, fun hecho => ?_⟩
  · have hext : llamaExtract stdout text = "" := by
      unfold llamaExtract
      rw [extractLines_nil_of_no_marker text (pySplit stdout "\n") hnm]
      rfl
    unfold translateWithLlamacpp
    by_cases hrc : rc ≠ 0
    · rw [if_pos hrc]
    · rw [if_neg hrc]
      simp [hext]
  · unfold translateWithLlamacpp
    by_cases hrc : rc ≠ 0
    · rw [if_pos hrc]
    · rw [if_neg hrc]
      rw [if_pos (Or.inl hempty)]
  · unfold translateWithLlamacpp
    by_cases hrc : rc ≠ 0
    · rw [if_pos hrc]
    · rw [if_neg hrc]
      rw [if_pos (Or.inr hecho)]

/-- Witness for claim C8: a concrete captured output with no marker line is
rejected rather than returned. -/
theorem llamacpp_malformed_rejection_witness :
    translateWithLlamacpp 0 "hello model loaded\nsome output" "Привет мир" = none :=
  (llamacpp_malformed_rejection 0 "hello model loaded\nsome output" "Привет мир").1 (by decide)

/-! ## Script transliterator: character-wise substitution is longest-match
greedy substitution for the source's single-character table -/

theorem bestStep_keep (cs : List Char) (b kv : String × String)
    (hb : b.1.data.length = 1) (hkv : kv.1.data.length = 1) :
    bestStep cs (some b) kv = some b := by
  unfold bestStep
  by_cases hc : kv.1.data ≠ [] ∧ kv.1.data.isPrefixOf cs
  · rw [if_pos hc]
    have hlt : ¬(b.1.data.length < kv.1.data.length) := by omega
    show (if b.1.data.length < kv.1.data.length then some kv else some b) = some b
    rw [if_neg hlt]
  · rw [if_neg hc]

theorem foldl_bestStep_keep (cs : List Char) :
    ∀ (table : List (String × String)), (∀ kv ∈ table, kv.1.data.length = 1) →
      ∀ (b : String × String), b.1.data.length = 1 →
        table.foldl (bestStep cs) (some b) = some b := by
  intro table
  induction table with
  | nil => intro _ b _; rfl
  | cons kv rest ih =>
    intro h1 b hb
    rw [List.foldl_cons, bestStep_keep cs b kv hb (h1 kv (List.mem_cons_self kv rest))]
    exact ih (fun x hx => h1 x (List.mem_cons_of_mem kv hx)) b hb

theorem bestMatchAt_of_single (c : Char) (rest : List Char) :
    ∀ (table : List (String × String)), (∀ kv ∈ table, kv.1.data.length = 1) →
      bestMatchAt table (c :: rest) =
        match List.lookup (String.mk [c]) table with
        | some v => some (String.mk [c], v)
        | none => none := by
  intro table
  induction table with
  | nil => intro _; rfl
  | cons kv tbl ih =>
    intro h1
    have hk : kv.1.data.length = 1 := h1 kv (List.mem_cons_self kv tbl)
    obtain ⟨k0, hk0⟩ : ∃ k0, kv.1.data = [k0] := by
      cases hd : kv.1.data with
      | nil => rw [hd] at hk; simp at hk
      | cons a tail =>
        cases tail with
        | nil => exact ⟨a, rfl⟩
        | cons x xs => rw [hd] at hk; simp at hk
    have hkey : kv.1 = String.mk [k0] := by
      have heta : kv.1 = String.mk kv.1.data := rfl
      rw [heta, hk0]
    unfold bestMatchAt
    rw [List.foldl_cons]
    by_cases hc : k0 = c
    · have hcond : kv.1.data ≠ [] ∧ kv.1.data.isPrefixOf (c :: rest) := by
        rw [hk0, hc]
        exact ⟨by simp, by simp [List.isPrefixOf]⟩
      have hstep : bestStep (c :: rest) none kv = some kv := by
        unfold bestStep
        rw [if_pos hcond]
      rw [hstep,
        foldl_bestStep_keep (c :: rest) tbl (fun x hx => h1 x (List.mem_cons_of_mem kv hx)) kv hk]
      have hkc : kv.1 = String.mk [c] := by rw [hkey, hc]
      have hbeq : (String.mk [c] == kv.1) = true := by
        rw [hkc]
        exact beq_self_eq_true (String.mk [c])
      rw [List.lookup, hbeq]
      show some kv = some (String.mk [c], kv.2)
      rw [← hkc]
    · have hcond : ¬(kv.1.data ≠ [] ∧ kv.1.data.isPrefixOf (c :: rest)) := by
        rw [hk0]
        intro hcontra
        have hpre := hcontra.2
        simp [List.isPrefixOf] at hpre
        exact hc hpre
      have hstep : bestStep (c :: rest) none kv = none := by
        unfold bestStep
        rw [if_neg hcond]
      rw [hstep]
      have hih := ih (fun x hx => h1 x (List.mem_cons_of_mem kv hx))
      have hkne : (String.mk [c] == kv.1) = false := by
        rw [hkey, beq_eq_false_iff_ne]
        intro he
        have hd : [c] = [k0] := congrArg String.data he
        injection hd with hch _
        exact hc hch.symm
      rw [List.lookup, hkne]
      exact hih

theorem greedyAux_of_single (table : List (String × String))
    (h1 : ∀ kv ∈ table, kv.1.data.length = 1) :
    ∀ (fuel : Nat) (cs : List Char), cs.length ≤ fuel →
      greedyAux table fuel cs = (cs.map (charLookupSub table)).flatten := by
  intro fuel
  induction fuel with
  | zero =>
    intro cs hcs
    cases cs with
    | nil => rfl
    | cons c rest => simp at hcs
  | succ f ih =>
    intro cs hcs
    cases cs with
    | nil => rfl
    | cons c rest =>
      have hrest : rest.length ≤ f := by
        simp only [List.length_cons] at hcs
        omega
      rw [greedyAux, bestMatchAt_of_single c rest table h1]
      cases hlk : List.lookup (String.mk [c]) table with
      | some v =>
        show v.data ++ greedyAux table f rest = _
        rw [ih rest hrest]
        simp [charLookupSub, hlk]
      | none =>
        show c :: greedyAux table f rest = _
        rw [ih rest hrest]
        simp [charLookupSub, hlk]

/-- Claim C9: the script conversion of the source — character-by-character
substitution through `SERBIAN_CYRILLIC_TO_LATIN` with unmapped characters
kept — coincides, for every input string, with the spec's greedy
longest-match transliteration over that table (all of whose source
sequences are single characters, so multi-character matches never fire),
and a character with no mapping entry passes through unchanged. -/
theorem convert_script_greedy_transliterate :
    (∀ (text : String),
        convertScript "latin" text = greedyTransliterate serbianCyrillicToLatin text)
    ∧ (∀ (ch : Char), List.lookup (String.mk [ch]) serbianCyrillicToLatin = none →
        convertScript "latin" (String.mk [ch]) = String.mk [ch]) := by
  constructor
  · intro text
    unfold convertScript greedyTransliterate
    rw [if_pos rfl]
    have h := greedyAux_of_single serbianCyrillicToLatin (by decide) text.data.length
      text.data le_rfl
    rw [h]
    rfl
  · intro ch hch
    unfold convertScript
    rw [if_pos rfl]
    simp [mapCharSub, charLookupSub, hch]

/-! ## Adequacy of the traversal fuel: beyond the tree depth the fuel is
irrelevant, so the wrapper's node-count fuel never reaches the exhaustion
branch -/

mutual
theorem depthE_eraseTextE : ∀ (e : Elem), depthE (eraseTextE e) = depthE e
  | .mk tag attrib t tl ch => by
    simp only [eraseTextE, depthE]
    rw [depthL_eraseTextL ch]
theorem depthL_eraseTextL : ∀ (es : ElemList), depthL (eraseTextL es) = depthL es
  | .nil => rfl
  | .cons e es => by
    simp only [eraseTextL, depthL]
    rw [depthE_eraseTextE e, depthL_eraseTextL es]
end

theorem depthE_of_eraseTextE_eq {a b : Elem} (h : eraseTextE a = eraseTextE b) :
    depthE a = depthE b := by
  rw [← depthE_eraseTextE a, ← depthE_eraseTextE b, h]

theorem depthL_of_eraseTextL_eq {a b : ElemList} (h : eraseTextL a = eraseTextL b) :
    depthL a = depthL b := by
  rw [← depthL_eraseTextL a, ← depthL_eraseTextL b, h]

theorem processElemF_depth (enabled : Bool) (backend : Nat → Except Unit String)
    (fuel : Nat) (st : TranslatorState) (ctx : String) (e : Elem) :
    depthE (processElemF enabled backend fuel st ctx e).2 = depthE e :=
  depthE_of_eraseTextE_eq (processElemF_shape enabled backend fuel st ctx e)

theorem processListWith_depth (enabled : Bool) (backend : Nat → Except Unit String)
    (fuel : Nat) (st : TranslatorState) (ctx : String) (es : ElemList) :
    depthL (processListWith (processElemF enabled backend fuel) st ctx es).2 = depthL es :=
  depthL_of_eraseTextL_eq
    (processListWith_shape (processElemF enabled backend fuel)
      (processElemF_shape enabled backend fuel) es st ctx)

theorem one_le_depthE (e : Elem) : 1 ≤ depthE e := by
  cases e with
  | mk tag attrib t tl ch =>
    simp [depthE]

theorem processListWith_congr
    (p q : TranslatorState → String → Elem → TranslatorState × Elem) (f : Nat)
    (h : ∀ (st : TranslatorState) (ctx : String) (e : Elem),
      depthE e ≤ f → p st ctx e = q st ctx e) :
    ∀ (es : ElemList) (st : TranslatorState) (ctx : String), depthL es ≤ f →
      processListWith p st ctx es = processListWith q st ctx es
  | .nil, st, ctx, _ => rfl
  | .cons child rest, st, ctx, hd => by
    have hmax : max (depthE child) (depthL rest) ≤ f := by
      simpa [depthL] using hd
    have hchild : depthE child ≤ f := le_trans (le_max_left _ _) hmax
    have hrest : depthL rest ≤ f := le_trans (le_max_right _ _) hmax
    simp only [processListWith]
    rw [h st _ child hchild, processListWith_congr p q f h rest _ ctx hrest]

theorem processElemF_fuel_succ (enabled : Bool) (backend : Nat → Except Unit String) :
    ∀ (f : Nat) (st : TranslatorState) (ctx : String) (e : Elem), depthE e ≤ f →
      processElemF enabled backend (f + 1) st ctx e = processElemF enabled backend f st ctx e := by
  intro f
  induction f with
  | zero =>
    intro st ctx e he
    exact absurd (le_trans (one_le_depthE e) he) (by omega)
  | succ f ih =>
    intro st ctx e he
    cases e with
    | mk tag attrib text tail children =>
      have hch : depthL children ≤ f := by
        simp only [depthE] at he
        omega
      simp only [processElemF]
      rw [processListWith_congr (processElemF enabled backend (f + 1))
        (processElemF enabled backend f) f ih children _ ctx hch]
      rw [processListWith_congr (processElemF enabled backend (f + 1))
        (processElemF enabled backend f) f ih _ _ ctx
        (by rw [processListWith_depth enabled backend f]; exact hch)]

theorem processElemF_fuel_irrelevant (enabled : Bool) (backend : Nat → Except Unit String)
    (st : TranslatorState) (ctx : String) (e : Elem) :
    ∀ (fuel : Nat), depthE e ≤ fuel →
      processElemF enabled backend fuel st ctx e =
        processElemF enabled backend (depthE e) st ctx e := by
  intro fuel
  induction fuel with
  | zero =>
    intro he
    exact absurd (le_trans (one_le_depthE e) he) (by omega)
  | succ f ih =>
    intro he
    by_cases hle : depthE e ≤ f
    · rw [processElemF_fuel_succ enabled backend f st ctx e hle]
      exact ih hle
    · have : depthE e = f + 1 := by omega
      rw [this]

mutual
theorem depthE_le_sizeE : ∀ (e : Elem), depthE e ≤ sizeE e
  | .mk tag attrib t tl ch => by
    simp only [depthE, sizeE]
    have := depthL_le_sizeL ch
    omega
theorem depthL_le_sizeL : ∀ (es : ElemList), depthL es ≤ sizeL es
  | .nil => le_refl 0
  | .cons e es => by
    simp only [depthL, sizeL]
    have h1 := depthE_le_sizeE e
    have h2 := depthL_le_sizeL es
    omega
end

/-- The wrapper's node-count fuel is interchangeable with the exact depth:
the fuel-exhaustion branch of `processElemF` is never taken from
`processElementTranslations`. -/
theorem processElementTranslations_eq_depth_fuel (enabled : Bool)
    (backend : Nat → Except Unit String) (st : TranslatorState) (ctx : String) (e : Elem) :
    processElementTranslations enabled backend st ctx e =
      processElemF enabled backend (depthE e) st ctx e :=
  processElemF_fuel_irrelevant enabled backend st ctx e (sizeE e) (depthE_le_sizeE e)

/-! ## Counterexamples in the legacy pipelines: the missing threshold gate
and the check-free output parser -/

/-- Claim C7 counterexample: the legacy `process_fb2_structure` reports the
job overall-successful on a run whose only fragment fails — the non-failed
fraction is 0%, far below the 90% threshold, yet the result is `True`,
because the source returns `True` unconditionally on every non-raising path
(the statistics record the failure: one fragment counted, none translated). -/
theorem legacy_job_reports_success_below_threshold :
    (processFb2Structure false failBackend initState nodeABV).1 = true
    ∧ ((processFb2Structure false failBackend initState nodeABV).2.1).stats.total = 1
    ∧ ((processFb2Structure false failBackend initState nodeABV).2.1).stats.translated = 0 := by
  decide

/-- Claim C8 counterexample: the older `parse_llama_output` performs no echo
check — a process output that merely repeats the source text after its
`"Translation:"` marker is returned as a successful translation: the result
equals the source `"Привет мир"` itself, which satisfies the very
case-insensitive-prefix echo condition under which the claim requires the
call to fail as `Malformed`. -/
theorem parse_llama_output_returns_echo :
    parseLlamaOutput "Translate from Russian to Serbian.\nTranslation: Привет мир" "p" =
      "Привет мир"
    ∧ pyToLower "Привет мир" =
        pyTake (pyToLower "Привет мир") (String.length "Привет мир") := by
  decide
